import Mathlib

/-!
Verification of the retrieval ranking and result-ordering pipeline of
`src/main.py` (scoring loop, price-aware reorder pass, pagination, and the
session page cursor).  Python strings are modelled as `List Char`, catalog
prices and vector components as `ℚ`, and similarity scores as `ℝ` (the
Euclidean norm needs a square root).  A price field that is missing or cannot
be parsed as a number is modelled as `none`.
-/

/-! ## String model (Python string primitives used by the scoring loop) -/

/-- Python `s.lower()`: lower-case every character. -/
def lowerStr (s : List Char) : List Char := s.map Char.toLower

/-- Whether `needle` is a leading segment of `hay` (helper for substring search). -/
def leadsIn : List Char → List Char → Bool
  | [], _ => true
  | _ :: _, [] => false
  | a :: as, b :: bs => a == b && leadsIn as bs

/-- Python `needle in hay` on strings: contiguous substring containment. -/
def subStr (needle : List Char) : List Char → Bool
  | [] => needle.isEmpty
  | c :: cs => leadsIn needle (c :: cs) || subStr needle cs

/-- Accumulator for `pySplit`; `cur` holds the current word reversed. -/
def pySplitAux : List Char → List Char → List (List Char)
  | cur, [] => if cur.isEmpty then [] else [cur.reverse]
  | cur, c :: cs =>
    if c.isWhitespace then
      if cur.isEmpty then pySplitAux [] cs
      else cur.reverse :: pySplitAux [] cs
    else pySplitAux (c :: cur) cs

/-- Python `s.split()` with no argument: the maximal whitespace-free runs of
`s`, in order, with no empty tokens. -/
def pySplit (s : List Char) : List (List Char) := pySplitAux [] s

/-! ## Data model

`Payload` carries the product fields the ranking core reads; `price` is the
result of parsing the stored price field (`none` when the field is missing or
unparsable).  `Point` is a fetched candidate record with its stored embedding,
and `ScoredPoint` mirrors the result wrapper class built in the scoring loop
(src/main.py lines 768-774: id, score, payload). -/

structure Payload where
  name : List Char
  brand : List Char
  price : Option ℚ

structure Point where
  id : ℕ
  vector : List ℚ
  payload : Payload

structure ScoredPoint where
  id : ℕ
  score : ℝ
  payload : Payload

/-! ## Scorer (src/main.py lines 736-774) -/

/-- Line 738: `query_text = query.lower() if query else ""`. -/
def queryTextOf (query : List Char) : List Char :=
  if query.isEmpty then [] else lowerStr query

/-- Lexical boost accumulation, lines 745-763.  The boost starts at 0 and the
three additions run only when `query_text` is non-empty:
`+0.3` when `query_text in product_name`, `+0.2` when
`query_text in product_brand`, and `(matching_words / len(query_words)) * 0.15`
when `query_words` is non-empty. -/
def boost (query_text : List Char) (p : Payload) : ℚ :=
  if query_text.isEmpty then 0
  else
    let product_name := lowerStr p.name
    let product_brand := lowerStr p.brand
    let b1 : ℚ := if subStr query_text product_name then 3 / 10 else 0
    let b2 : ℚ := if subStr query_text product_brand then 2 / 10 else 0
    let query_words := pySplit query_text
    let name_words := pySplit product_name
    let matching_words := (query_words.filter fun word => name_words.contains word).length
    let b3 : ℚ :=
      if query_words.isEmpty then 0
      else ((matching_words : ℚ) / (query_words.length : ℚ)) * (15 / 100)
    b1 + b2 + b3

/-- Dot product `np.dot(search_vec, point_vec)` of two vectors. -/
def dotProd (q v : List ℚ) : ℚ := (List.zipWith (· * ·) q v).sum

/-- Sum of squared components (argument of the Euclidean norm's square root). -/
def sumSq (v : List ℚ) : ℚ := (v.map fun x => x * x).sum

/-- Euclidean norm `np.linalg.norm(v)`.  `Real.sqrt` makes this a real number;
the Python code computes the same quantity in floating point. -/
noncomputable def norm2 (v : List ℚ) : ℝ := Real.sqrt ((sumSq v : ℚ) : ℝ)

/-- Line 743: cosine similarity, the dot product divided by the product of the
two Euclidean norms.  Lean division by zero yields 0 here; the Python code
performs the same unguarded division, where numpy yields NaN — the
zero-norm theorems below only use the facts that the denominator is zero and
that no candidate is excluded, never the value of the quotient. -/
noncomputable def similarity (q v : List ℚ) : ℝ :=
  ((dotProd q v : ℚ) : ℝ) / (norm2 q * norm2 v)

/-- Line 765: `final_score = similarity + boost`. -/
noncomputable def final_score (search_vec : List ℚ) (query_text : List Char) (pt : Point) : ℝ :=
  similarity search_vec pt.vector + ((boost query_text pt.payload : ℚ) : ℝ)

/-- The scoring loop, lines 740-774: every fetched point is mapped to a
`ScoredPoint` carrying its combined score; no point is filtered out. -/
noncomputable def scoreResults (search_vec : List ℚ) (query_text : List Char)
    (points : List Point) : List ScoredPoint :=
  points.map fun point =>
    { id := point.id
      score := final_score search_vec query_text point
      payload := point.payload }

/-! ## Sort by score and truncation (src/main.py lines 777-778) -/

/-- Line 777: `results.sort(key=lambda x: x.score, reverse=True)` — a stable
sort by descending score (Python's sort is stable, also with `reverse=True`:
score ties keep their original relative order). -/
noncomputable def sortByScoreDesc (l : List ScoredPoint) : List ScoredPoint :=
  @List.insertionSort ScoredPoint (fun a b => b.score ≤ a.score)
    (fun a b => inferInstanceAs (Decidable (b.score ≤ a.score))) l

/-- Line 778: `results = results[:100]`, applied to the score-sorted list. -/
noncomputable def rankResults (l : List ScoredPoint) : List ScoredPoint :=
  (sortByScoreDesc l).take 100

/-! ## Reorderer (src/main.py lines 779-801) -/

/-- Line 779: `TOP_K = 7`. -/
def TOP_K : ℕ := 7

/-- Lines 781-785: `get_price` parses the payload's price and falls back to
`budget` when the field is missing or unparsable (`try/except` around
`float(...)`); the candidate is never excluded. -/
def get_price (budget : ℚ) (p : ScoredPoint) : ℚ := p.payload.price.getD budget

/-- Lines 786-801: split the ranked list at `TOP_K`, stably sort the head by
ascending `abs(get_price(x) - budget)`, stably sort the tail by ascending
`get_price(x)`, and concatenate. -/
def reorder (results : List ScoredPoint) (budget : ℚ) : List ScoredPoint :=
  let top_similar :=
    List.insertionSort
      (fun x y => |get_price budget x - budget| ≤ |get_price budget y - budget|)
      (results.take TOP_K)
  let remaining :=
    List.insertionSort
      (fun x y => get_price budget x ≤ get_price budget y)
      (results.drop TOP_K)
  top_similar ++ remaining

/-- Lines 777-801 as one pass: sort by score descending, truncate to 100, then
apply the price-aware reorder. -/
noncomputable def processResults (l : List ScoredPoint) (budget : ℚ) : List ScoredPoint :=
  reorder (rankResults l) budget

/-! ## Paginator (src/main.py lines 826-829) -/

/-- Line 826: `items_per_page = 9`. -/
def items_per_page : ℕ := 9

/-- Line 827: `total_pages = (len(results) // items_per_page) +
(1 if len(results) % items_per_page > 0 else 0)`. -/
def total_pages (n : ℕ) : ℕ :=
  n / items_per_page + (if n % items_per_page > 0 then 1 else 0)

/-- Line 829: `page_results = results[current_idx : current_idx + items_per_page]`. -/
def pageSlice {α : Type} (results : List α) (current_idx : ℕ) : List α :=
  (results.drop current_idx).take items_per_page

/-! ## Session cursor state (src/main.py lines 248-249, 663-691, 828)

`page_offset` is created once with value 0 when absent from the session state
(lines 248-249) and is modified only by the Previous/Next page buttons
(lines 947-948 and 964-965).  The search-execution branch (lines 663-691)
writes `total_searches += 1` (and consumes `loaded_search`) but contains no
assignment to `page_offset`; other session fields not read by the pipeline are
omitted from the model. -/

structure SessionState where
  page_offset : ℕ
  total_searches : ℕ

/-- The session-state writes performed by executing a search
(src/main.py lines 663-691): `total_searches` is incremented and
`page_offset` is left untouched. -/
def runSearchSessionUpdate (s : SessionState) : SessionState :=
  { s with total_searches := s.total_searches + 1 }

/-- Line 828: `current_idx = st.session_state.get('page_offset', 0)`. -/
def currentIdx (s : SessionState) : ℕ := s.page_offset

/-- Which branch of lines 667-691 executes: the image branch wins whenever a
file is uploaded (`if uploaded_file is not None: ... elif query: ...`). -/
inductive SearchOrigin where
  | image : SearchOrigin
  | text : SearchOrigin
  | noSearch : SearchOrigin
deriving DecidableEq

/-- Branch selection of the search execution block (lines 667-691). -/
def searchOrigin (uploadedFile : Bool) (query : List Char) : SearchOrigin :=
  if uploadedFile then SearchOrigin.image
  else if query.isEmpty then SearchOrigin.noSearch
  else SearchOrigin.text

/-! ## Spec-side scorer description

`boostSpec` restates the lexical boost in the specification's words
(spec §4.1): zero for an empty query text, and otherwise — both strings
lower-cased — the sum of 0.30 for a full-query substring of the name, 0.20
for a full-query substring of the brand, and 0.15 times the fraction of
whitespace-delimited query words occurring among the name's
whitespace-delimited words (0 when the query splits into zero words).  It is
proved equal to the code's `boost ∘ queryTextOf`. -/
def boostSpec (query : List Char) (p : Payload) : ℚ :=
  if query.isEmpty then 0
  else
    let q := lowerStr query
    let name := lowerStr p.name
    let brand := lowerStr p.brand
    (if subStr q name then 30 / 100 else 0)
      + (if subStr q brand then 20 / 100 else 0)
      + (if (pySplit q).length = 0 then 0
         else (15 / 100) *
           ((((pySplit q).filter fun w => (pySplit name).contains w).length : ℚ)
             / ((pySplit q).length : ℚ)))

/-! ## Generic lemmas about the stable sorts

Python's `list.sort` is stable; `List.insertionSort r` with a total preorder
`r` is the matching model: an element is inserted before exactly the elements
it is strictly below, so `r`-ties keep their input order.  The lemmas below
package sortedness and stability for an arbitrary decidable relation. -/

section SortLemmas

variable {α : Type}

theorem sorted_insertionSort_of (r : α → α → Prop) [DecidableRel r]
    (total : ∀ a b, r a b ∨ r b a) (trans : ∀ {a b c}, r a b → r b c → r a c)
    (l : List α) : (List.insertionSort r l).Sorted r := by
  letI : IsTotal α r := ⟨total⟩
  letI : IsTrans α r := ⟨fun _ _ _ hab hbc => trans hab hbc⟩
  exact List.sorted_insertionSort r l

theorem pairwise_orderedInsert_stable (r : α → α → Prop) [DecidableRel r]
    (total : ∀ a b, r a b ∨ r b a) (trans : ∀ {a b c}, r a b → r b c → r a c)
    (p : α → α → Prop) (x : α) :
    ∀ L : List α, L.Sorted r →
      L.Pairwise (fun a b => r a b ∧ (¬ r b a ∨ p a b)) →
      (∀ y ∈ L, p x y) →
      (L.orderedInsert r x).Pairwise (fun a b => r a b ∧ (¬ r b a ∨ p a b))
  | [], _, _, _ => by simp [List.orderedInsert]
  | y :: ys, hs, hg, hx => by
    rw [List.orderedInsert]
    split_ifs with h
    · refine List.pairwise_cons.mpr ⟨fun z hz => ?_, hg⟩
      rcases List.mem_cons.mp hz with hz | hz
      · exact ⟨hz ▸ h, Or.inr (hx z (List.mem_cons.mpr (Or.inl hz)))⟩
      · exact ⟨trans h (List.rel_of_sorted_cons hs z hz), Or.inr (hx z (List.mem_cons_of_mem y hz))⟩
    · have hyx : r y x := (total x y).resolve_left h
      refine List.pairwise_cons.mpr ⟨fun z hz => ?_, ?_⟩
      · rcases (List.mem_orderedInsert r).mp hz with hz | hz
        · exact hz ▸ ⟨hyx, Or.inl h⟩
        · exact (List.pairwise_cons.mp hg).1 z hz
      · exact pairwise_orderedInsert_stable r total trans p x ys hs.of_cons
          (List.pairwise_cons.mp hg).2 (fun z hz => hx z (List.mem_cons_of_mem y hz))

theorem pairwise_insertionSort_stable (r : α → α → Prop) [DecidableRel r]
    (total : ∀ a b, r a b ∨ r b a) (trans : ∀ {a b c}, r a b → r b c → r a c)
    (p : α → α → Prop) :
    ∀ l : List α, l.Pairwise p →
      (List.insertionSort r l).Pairwise (fun a b => r a b ∧ (¬ r b a ∨ p a b))
  | [], _ => by simp [List.insertionSort]
  | x :: xs, hl => by
    rw [List.insertionSort]
    exact pairwise_orderedInsert_stable r total trans p x _
      (sorted_insertionSort_of r total trans xs)
      (pairwise_insertionSort_stable r total trans p xs (List.pairwise_cons.mp hl).2)
      (fun y hy => (List.pairwise_cons.mp hl).1 y ((List.mem_insertionSort r).mp hy))

end SortLemmas

/-! ## Characterization of the reorder pass -/

theorem reorder_take (L : List ScoredPoint) (b : ℚ) :
    (reorder L b).take TOP_K =
      List.insertionSort
        (fun x y => |get_price b x - b| ≤ |get_price b y - b|) (L.take TOP_K) := by
  unfold reorder
  by_cases h : L.length ≤ TOP_K
  · rw [List.drop_eq_nil_of_le h]
    rw [show (List.insertionSort
        (fun x y => get_price b x ≤ get_price b y) ([] : List ScoredPoint)) = [] from rfl]
    rw [List.append_nil]
    exact List.take_of_length_le
      (by rw [List.length_insertionSort, List.length_take]; omega)
  · exact List.take_left' (by rw [List.length_insertionSort, List.length_take]; omega)

theorem reorder_drop (L : List ScoredPoint) (b : ℚ) :
    (reorder L b).drop TOP_K =
      List.insertionSort (fun x y => get_price b x ≤ get_price b y) (L.drop TOP_K) := by
  unfold reorder
  by_cases h : L.length ≤ TOP_K
  · rw [List.drop_eq_nil_of_le h]
    rw [show (List.insertionSort
        (fun x y => get_price b x ≤ get_price b y) ([] : List ScoredPoint)) = [] from rfl]
    rw [List.append_nil]
    exact List.drop_eq_nil_of_le
      (by rw [List.length_insertionSort, List.length_take]; omega)
  · exact List.drop_left' (by rw [List.length_insertionSort, List.length_take]; omega)

/-! ## Boost: code versus specification wording -/

theorem boost_queryTextOf_eq_boostSpec (query : List Char) (p : Payload) :
    boost (queryTextOf query) p = boostSpec query p := by
  cases query with
  | nil => simp [queryTextOf, boost, boostSpec]
  | cons c cs =>
    have h1 : ((c :: cs : List Char)).isEmpty = false := rfl
    have h2 : (lowerStr (c :: cs)).isEmpty = false := rfl
    simp only [queryTextOf, boost, boostSpec, h1, h2, Bool.false_eq_true, if_false]
    by_cases hw : pySplit (lowerStr (c :: cs)) = []
    · simp only [hw, List.isEmpty_nil, List.length_nil, if_true]
      split_ifs <;> norm_num
    · have hw1 : (pySplit (lowerStr (c :: cs))).isEmpty = false := by
        simpa [List.isEmpty_iff] using hw
      have hw2 : ¬ (pySplit (lowerStr (c :: cs))).length = 0 := by
        simpa [List.length_eq_zero] using hw
      simp only [hw1, hw2, Bool.false_eq_true, if_false]
      split_ifs <;> ring_nf

/-- C1: for every query vector and candidate embedding of the same dimension
with non-zero norms, the final score is the cosine similarity (dot product
divided by the product of the Euclidean norms) plus the lexical boost as the
specification words it (`boostSpec`): 0 for empty query text, else the sum of
0.30 for a name substring, 0.20 for a brand substring and 0.15 times the
matched-word fraction, additive and unclipped. -/
theorem scorer_final_score_eq_cosine_plus_spec_boost
    (search_vec : List ℚ) (pt : Point) (query : List Char)
    (hdim : search_vec.length = pt.vector.length)
    (hq : norm2 search_vec ≠ 0) (hv : norm2 pt.vector ≠ 0) :
    final_score search_vec (queryTextOf query) pt =
      ((dotProd search_vec pt.vector : ℚ) : ℝ) / (norm2 search_vec * norm2 pt.vector)
        + ((boostSpec query pt.payload : ℚ) : ℝ) := by
  unfold final_score similarity
  rw [boost_queryTextOf_eq_boostSpec]

/-- Concrete payload used by witnesses and counterexamples. -/
def iphonePayload : Payload :=
  { name := "iPhone 15".toList, brand := "Apple".toList, price := some 3000 }

/-- Concrete candidate point with a unit embedding. -/
def iphonePoint : Point := { id := 1, vector := [0, 1], payload := iphonePayload }

theorem scorer_final_score_eq_cosine_plus_spec_boost_witness :
    ([(1 : ℚ), 0].length = iphonePoint.vector.length
      ∧ norm2 [(1 : ℚ), 0] ≠ 0 ∧ norm2 iphonePoint.vector ≠ 0)
    ∧ final_score [(1 : ℚ), 0] (queryTextOf ("iphone".toList)) iphonePoint =
        ((dotProd [(1 : ℚ), 0] iphonePoint.vector : ℚ) : ℝ)
          / (norm2 [(1 : ℚ), 0] * norm2 iphonePoint.vector)
        + ((boostSpec ("iphone".toList) iphonePoint.payload : ℚ) : ℝ) := by
  have hs1 : sumSq [(1 : ℚ), 0] = 1 := by norm_num [sumSq]
  have hs2 : sumSq iphonePoint.vector = 1 := by norm_num [sumSq, iphonePoint]
  have hq : norm2 [(1 : ℚ), 0] ≠ 0 := by
    rw [norm2, hs1]; norm_num
  have hv : norm2 iphonePoint.vector ≠ 0 := by
    rw [norm2, hs2]; norm_num
  have hdim : [(1 : ℚ), 0].length = iphonePoint.vector.length := rfl
  exact ⟨⟨hdim, hq, hv⟩,
    scorer_final_score_eq_cosine_plus_spec_boost [(1 : ℚ), 0] iphonePoint
      ("iphone".toList) hdim hq hv⟩

/-- Bounds on the accumulated lexical boost, for any query text string. -/
theorem boost_bounds_aux (qt : List Char) (p : Payload) :
    0 ≤ boost qt p ∧ boost qt p ≤ 65 / 100 := by
  by_cases h : qt.isEmpty
  · rw [boost, if_pos h]; norm_num
  · rw [boost, if_neg h]
    simp only []
    have h1 : 0 ≤ (if subStr qt (lowerStr p.name) then (3 : ℚ) / 10 else 0)
        ∧ (if subStr qt (lowerStr p.name) then (3 : ℚ) / 10 else 0) ≤ 3 / 10 := by
      split_ifs <;> norm_num
    have h2 : 0 ≤ (if subStr qt (lowerStr p.brand) then (2 : ℚ) / 10 else 0)
        ∧ (if subStr qt (lowerStr p.brand) then (2 : ℚ) / 10 else 0) ≤ 2 / 10 := by
      split_ifs <;> norm_num
    have h3 : 0 ≤ (if (pySplit qt).isEmpty then (0 : ℚ)
          else ((((pySplit qt).filter fun word => (pySplit (lowerStr p.name)).contains word).length : ℚ)
            / ((pySplit qt).length : ℚ)) * (15 / 100))
        ∧ (if (pySplit qt).isEmpty then (0 : ℚ)
          else ((((pySplit qt).filter fun word => (pySplit (lowerStr p.name)).contains word).length : ℚ)
            / ((pySplit qt).length : ℚ)) * (15 / 100)) ≤ 15 / 100 := by
      split_ifs with hw
      · norm_num
      · have hn : 0 < ((pySplit qt).length : ℚ) := by
          have : pySplit qt ≠ [] := by simpa [List.isEmpty_iff] using hw
          have : 0 < (pySplit qt).length := List.length_pos.mpr this
          exact_mod_cast this
        have hm : (((pySplit qt).filter fun word =>
              (pySplit (lowerStr p.name)).contains word).length : ℚ)
            ≤ ((pySplit qt).length : ℚ) := by
          exact_mod_cast List.length_filter_le _ _
        have hfrac : (((pySplit qt).filter fun word =>
              (pySplit (lowerStr p.name)).contains word).length : ℚ)
            / ((pySplit qt).length : ℚ) ≤ 1 := by
          rw [div_le_one hn]; exact hm
        have hfrac0 : 0 ≤ (((pySplit qt).filter fun word =>
              (pySplit (lowerStr p.name)).contains word).length : ℚ)
            / ((pySplit qt).length : ℚ) := by positivity
        constructor
        · positivity
        · nlinarith
    exact ⟨by linarith [h1.1, h2.1, h3.1], by linarith [h1.2, h2.2, h3.2]⟩

/-- C10: for every query text and candidate payload the lexical boost lies in
the interval from 0 to 0.65 (at most 0.30 + 0.20 + 0.15), so the final score
never exceeds the cosine similarity by more than 0.65 and never falls below
it. -/
theorem boost_bounded_zero_to_065 (query_text : List Char) (search_vec : List ℚ)
    (pt : Point) :
    (0 ≤ boost query_text pt.payload ∧ boost query_text pt.payload ≤ 65 / 100)
    ∧ similarity search_vec pt.vector ≤ final_score search_vec query_text pt
    ∧ final_score search_vec query_text pt
        ≤ similarity search_vec pt.vector + 65 / 100 := by
  obtain ⟨hb0, hb1⟩ := boost_bounds_aux query_text pt.payload
  refine ⟨⟨hb0, hb1⟩, ?_, ?_⟩
  · unfold final_score
    have : (0 : ℝ) ≤ ((boost query_text pt.payload : ℚ) : ℝ) := by exact_mod_cast hb0
    linarith
  · unfold final_score
    have : ((boost query_text pt.payload : ℚ) : ℝ) ≤ 65 / 100 := by
      have := hb1
      have h : ((boost query_text pt.payload : ℚ) : ℝ) ≤ (((65 : ℚ) / 100 : ℚ) : ℝ) := by
        exact_mod_cast this
      simpa using h
    linarith

/-! ## Zero-norm candidates and the session cursor -/

/-- Candidate whose stored embedding is the zero vector. -/
def zeroNormPoint : Point :=
  { id := 7, vector := [0, 0],
    payload := { name := "Galaxy S23".toList, brand := "Samsung".toList, price := some 1800 } }

/-- C3 (code bug): the scoring loop performs the cosine division with no
zero-norm guard.  For a candidate whose stored embedding is the zero vector
the norm factor in the denominator is 0, yet the candidate is still scored and
kept in the results (the loop maps every fetched point to a scored point);
nothing excludes or flags it. -/
theorem zero_norm_candidate_scored_unguarded :
    norm2 zeroNormPoint.vector = 0
    ∧ (scoreResults [1, 0] [] [zeroNormPoint]).length = 1
    ∧ (scoreResults [1, 0] [] [zeroNormPoint]).map (fun r => r.id) = [7] := by
  refine ⟨?_, by simp [scoreResults], by simp [scoreResults, zeroNormPoint]⟩
  have h : sumSq zeroNormPoint.vector = 0 := by norm_num [sumSq, zeroNormPoint]
  rw [norm2, h]
  norm_num

/-- Five concrete scored candidates (a result list shorter than two pages). -/
noncomputable def fiveResults : List ScoredPoint :=
  [⟨1, 1, iphonePayload⟩, ⟨2, (9 : ℝ) / 10, iphonePayload⟩,
   ⟨3, (8 : ℝ) / 10, iphonePayload⟩, ⟨4, (7 : ℝ) / 10, iphonePayload⟩,
   ⟨5, (6 : ℝ) / 10, iphonePayload⟩]

/-- C4 (code bug): executing a search leaves the session's `page_offset`
unchanged — the branch at src/main.py lines 663-691 contains no write to it,
and lines 248-249 only initialize it once per session — so a new search issued
while the cursor sits at offset 18 paginates the new results from index 18:
with 5 results, the displayed page is empty instead of the first 5 items. -/
theorem new_search_leaves_cursor_stale :
    (runSearchSessionUpdate { page_offset := 18, total_searches := 2 }).page_offset = 18
    ∧ currentIdx (runSearchSessionUpdate { page_offset := 18, total_searches := 2 }) ≠ 0
    ∧ pageSlice fiveResults
        (currentIdx (runSearchSessionUpdate { page_offset := 18, total_searches := 2 })) = [] := by
  refine ⟨rfl, by norm_num [currentIdx, runSearchSessionUpdate], ?_⟩
  have h : List.drop 18 fiveResults = [] :=
    List.drop_eq_nil_of_le (by norm_num [fiveResults])
  simp [pageSlice, currentIdx, runSearchSessionUpdate, h]

/-- C9 counterexample: an image-originated search (a file is uploaded, so the
`if uploaded_file is not None` branch wins) executed while the text "iphone"
sits in the query box still computes a non-zero lexical boost, because line
738 derives `query_text` from the text input regardless of the branch taken. -/
theorem image_origin_nonzero_boost :
    searchOrigin true ("iphone".toList) = SearchOrigin.image
    ∧ boost (queryTextOf ("iphone".toList)) iphonePayload ≠ 0 := by
  refine ⟨rfl, ?_⟩
  have e1 : queryTextOf ("iphone".toList) = "iphone".toList := by decide
  have e2 : subStr ("iphone".toList) (lowerStr iphonePayload.name) = true := by decide
  have e3 : subStr ("iphone".toList) (lowerStr iphonePayload.brand) = false := by decide
  have e4 : pySplit ("iphone".toList) = ["iphone".toList] := by decide
  have e5 : List.filter (fun word => (pySplit (lowerStr iphonePayload.name)).contains word)
      ["iphone".toList] = ["iphone".toList] := by decide
  have e6 : ("iphone".toList).isEmpty = false := by decide
  rw [e1, boost]
  simp only [e2, e3, e4, e5, e6, Bool.false_eq_true, if_false, if_true, eq_self_iff_true,
    List.length_cons, List.length_nil, List.isEmpty_cons]
  norm_num

/-- C9 amended: the lexical boost contributes zero whenever the query text
input is empty — in particular an image-originated search with an empty text
box scores every candidate by cosine similarity alone — but image origination
by itself does not disable the boost (see `image_origin_nonzero_boost`). -/
theorem empty_query_text_scores_cosine_only (search_vec : List ℚ) (pt : Point) :
    searchOrigin true [] = SearchOrigin.image
    ∧ boost (queryTextOf []) pt.payload = 0
    ∧ final_score search_vec (queryTextOf []) pt = similarity search_vec pt.vector := by
  refine ⟨rfl, by simp [queryTextOf, boost], by simp [final_score, queryTextOf, boost]⟩

/-- C5: the reorder pass is a pure permutation of its input: same length and
the same multiset of elements and of ids — no candidate dropped, none
duplicated. -/
theorem reorder_is_permutation (L : List ScoredPoint) (b : ℚ) :
    (reorder L b).Perm L
    ∧ (reorder L b).length = L.length
    ∧ ((reorder L b).map fun x => x.id).Perm (L.map fun x => x.id) := by
  have hp : (reorder L b).Perm L := by
    have hap :=
      List.Perm.append
        (List.perm_insertionSort
          (fun x y => |get_price b x - b| ≤ |get_price b y - b|) (L.take TOP_K))
        (List.perm_insertionSort
          (fun x y => get_price b x ≤ get_price b y) (L.drop TOP_K))
    rw [List.take_append_drop] at hap
    exact hap
  exact ⟨hp, hp.length_eq, hp.map _⟩

/-- C6: applying the reorder pass twice with the same budget equals applying
it once: the second pass re-sorts already-sorted head and tail segments with
stable sorts, which leave them unchanged. -/
theorem reorder_idempotent (L : List ScoredPoint) (b : ℚ) :
    reorder (reorder L b) b = reorder L b := by
  show List.insertionSort
      (fun x y => |get_price b x - b| ≤ |get_price b y - b|) ((reorder L b).take TOP_K)
    ++ List.insertionSort
      (fun x y => get_price b x ≤ get_price b y) ((reorder L b).drop TOP_K)
    = reorder L b
  rw [reorder_take, reorder_drop]
  rw [List.Sorted.insertionSort_eq
      (sorted_insertionSort_of
        (fun x y : ScoredPoint => |get_price b x - b| ≤ |get_price b y - b|)
        (fun x y => le_total _ _) (fun h1 h2 => le_trans h1 h2) (List.take TOP_K L)),
    List.Sorted.insertionSort_eq
      (sorted_insertionSort_of
        (fun x y : ScoredPoint => get_price b x ≤ get_price b y)
        (fun x y => le_total _ _) (fun h1 h2 => le_trans h1 h2) (List.drop TOP_K L))]
  rfl

/-- C2: the reorder pass splits the ranked list at `TOP_K` = 7; the head slot
of the output is a permutation of the input head, stably sorted by ascending
absolute distance of price from the budget with ties kept in original (id)
order; the tail slot is a permutation of the input tail, stably sorted by
ascending price; an unparsable price is treated as equal to the budget
(distance 0) and not excluded; with fewer than `TOP_K` elements the tail is
empty and the whole list follows the head rule. -/
theorem reorder_head_tail_sort_spec (L : List ScoredPoint) (b : ℚ)
    (hL : L.Pairwise fun x y => x.id < y.id) :
    ((reorder L b).take TOP_K).Perm (L.take TOP_K)
    ∧ ((reorder L b).drop TOP_K).Perm (L.drop TOP_K)
    ∧ ((reorder L b).take TOP_K).Pairwise (fun x y =>
        |get_price b x - b| < |get_price b y - b| ∨
          (|get_price b x - b| = |get_price b y - b| ∧ x.id < y.id))
    ∧ ((reorder L b).drop TOP_K).Pairwise (fun x y =>
        get_price b x < get_price b y ∨ (get_price b x = get_price b y ∧ x.id < y.id))
    ∧ (∀ x ∈ L, x.payload.price = none → get_price b x = b ∧ |get_price b x - b| = 0)
    ∧ (L.length ≤ TOP_K → (reorder L b).drop TOP_K = []) := by
  refine ⟨?_, ?_, ?_, ?_, ?_, ?_⟩
  · rw [reorder_take]; exact List.perm_insertionSort _ _
  · rw [reorder_drop]; exact List.perm_insertionSort _ _
  · rw [reorder_take]
    have hstable :=
      pairwise_insertionSort_stable
        (fun x y => |get_price b x - b| ≤ |get_price b y - b|)
        (fun x y => le_total _ _) (fun h1 h2 => le_trans h1 h2)
        (fun x y => x.id < y.id) (L.take TOP_K)
        (List.Pairwise.sublist (List.take_sublist TOP_K L) hL)
    refine hstable.imp ?_
    intro x y h
    rcases h with ⟨h1, h2 | h2⟩
    · exact Or.inl (lt_of_le_not_le h1 h2)
    · by_cases h3 : |get_price b y - b| ≤ |get_price b x - b|
      · exact Or.inr ⟨le_antisymm h1 h3, h2⟩
      · exact Or.inl (lt_of_le_not_le h1 h3)
  · rw [reorder_drop]
    have hstable :=
      pairwise_insertionSort_stable
        (fun x y => get_price b x ≤ get_price b y)
        (fun x y => le_total _ _) (fun h1 h2 => le_trans h1 h2)
        (fun x y => x.id < y.id) (L.drop TOP_K)
        (List.Pairwise.sublist (List.drop_sublist TOP_K L) hL)
    refine hstable.imp ?_
    intro x y h
    rcases h with ⟨h1, h2 | h2⟩
    · exact Or.inl (lt_of_le_not_le h1 h2)
    · by_cases h3 : get_price b y ≤ get_price b x
      · exact Or.inr ⟨le_antisymm h1 h3, h2⟩
      · exact Or.inl (lt_of_le_not_le h1 h3)
  · intro x _ hpx
    constructor
    · simp [get_price, hpx]
    · simp [get_price, hpx]
  · intro h
    rw [reorder_drop, List.drop_eq_nil_of_le h]
    rfl

/-- C7: after scoring, the candidate list is sorted by score descending with
ties broken by original fetch order (modelled as strictly increasing ids —
the sort is stable), the sorted list is truncated to at most 100 elements,
and the truncation sits strictly after the sort and before the reorder pass
(`processResults` is `reorder` applied to the truncated sorted list). -/
theorem rank_sorted_desc_stable_truncated (l : List ScoredPoint) (budget : ℚ)
    (hl : l.Pairwise fun x y => x.id < y.id) :
    (sortByScoreDesc l).Perm l
    ∧ (sortByScoreDesc l).Pairwise (fun x y =>
        y.score < x.score ∨ (x.score = y.score ∧ x.id < y.id))
    ∧ rankResults l = (sortByScoreDesc l).take 100
    ∧ (rankResults l).length = min 100 l.length
    ∧ (rankResults l).Pairwise (fun x y =>
        y.score < x.score ∨ (x.score = y.score ∧ x.id < y.id))
    ∧ processResults l budget = reorder (rankResults l) budget := by
  have hperm : (sortByScoreDesc l).Perm l := List.perm_insertionSort _ _
  have hpair : (sortByScoreDesc l).Pairwise (fun x y =>
      y.score < x.score ∨ (x.score = y.score ∧ x.id < y.id)) := by
    have hstable :=
      pairwise_insertionSort_stable
        (fun x y : ScoredPoint => y.score ≤ x.score)
        (fun x y => le_total _ _) (fun h1 h2 => le_trans h2 h1)
        (fun x y => x.id < y.id) l hl
    refine hstable.imp ?_
    intro x y h
    rcases h with ⟨h1, h2 | h2⟩
    · exact Or.inl (lt_of_le_not_le h1 h2)
    · by_cases h3 : x.score ≤ y.score
      · exact Or.inr ⟨le_antisymm h3 h1, h2⟩
      · exact Or.inl (lt_of_le_not_le h1 h3)
  refine ⟨hperm, hpair, rfl, ?_, List.Pairwise.sublist (List.take_sublist _ _) hpair, rfl⟩
  show ((sortByScoreDesc l).take 100).length = min 100 l.length
  rw [List.length_take, hperm.length_eq]

/-! ## Pagination lemmas -/

theorem total_pages_eq_ceil (n : ℕ) :
    total_pages n = ⌈(n : ℚ) / (items_per_page : ℚ)⌉₊ := by
  have h9 : (0 : ℚ) < (items_per_page : ℚ) := by norm_num [items_per_page]
  apply le_antisymm
  · rcases Nat.eq_zero_or_pos (total_pages n) with h | h
    · omega
    · obtain ⟨k, hk⟩ : ∃ k, total_pages n = k + 1 := ⟨total_pages n - 1, by omega⟩
      have hkn : k * items_per_page < n := by
        simp only [total_pages, items_per_page] at hk ⊢
        split_ifs at hk <;> omega
      have hq : (k : ℚ) < (n : ℚ) / (items_per_page : ℚ) := by
        rw [lt_div_iff₀ h9]
        exact_mod_cast hkn
      have := Nat.lt_ceil.mpr hq
      omega
  · rw [Nat.ceil_le, div_le_iff₀ h9]
    have h : n ≤ total_pages n * items_per_page := by
      simp only [total_pages, items_per_page]
      split_ifs <;> omega
    exact_mod_cast h

theorem total_pages_pos_step (n : ℕ) (h : 0 < n) :
    total_pages n = total_pages (n - items_per_page) + 1 := by
  simp only [total_pages, items_per_page]
  split_ifs <;> omega

theorem pageSlice_flatten {α : Type} (l : List α) :
    ((List.range (total_pages l.length)).map
      fun k => pageSlice l (k * items_per_page)).flatten = l := by
  suffices h : ∀ (N : ℕ) (l : List α), l.length ≤ N →
      ((List.range (total_pages l.length)).map
        fun k => pageSlice l (k * items_per_page)).flatten = l from h l.length l le_rfl
  intro N
  induction N with
  | zero =>
    intro l hl
    have : l = [] := List.length_eq_zero.mp (by omega)
    subst this
    simp [total_pages, items_per_page]
  | succ N ih =>
    intro l hl
    rcases Nat.eq_zero_or_pos l.length with h0 | hpos
    · have : l = [] := List.length_eq_zero.mp h0
      subst this
      simp [total_pages, items_per_page]
    · rw [total_pages_pos_step l.length hpos, List.range_succ_eq_map, List.map_cons,
        List.map_map, List.flatten_cons]
      have hfun : ((fun k => pageSlice l (k * items_per_page)) ∘ Nat.succ)
          = fun k => pageSlice (l.drop items_per_page) (k * items_per_page) := by
        funext k
        simp only [Function.comp_apply, pageSlice]
        rw [List.drop_drop]
        have : Nat.succ k * items_per_page = items_per_page + k * items_per_page := by
          unfold items_per_page
          omega
        rw [this]
      have hlen : (l.drop items_per_page).length = l.length - items_per_page :=
        List.length_drop _ _
      rw [hfun, show l.length - items_per_page = (l.drop items_per_page).length from hlen.symm,
        ih (l.drop items_per_page) (by rw [hlen]; unfold items_per_page; omega)]
      have hzero : pageSlice l (0 * items_per_page) = l.take items_per_page := by
        simp [pageSlice]
      rw [hzero]
      exact List.take_append_drop _ l

theorem pageSlice_length_sum {α : Type} (l : List α) :
    ((List.range (total_pages l.length)).map
      fun k => (pageSlice l (k * items_per_page)).length).sum = l.length := by
  have h := congrArg List.length (pageSlice_flatten l)
  rw [List.length_flatten, List.map_map] at h
  simpa [Function.comp] using h

/-- C8: with page size 9, `total_pages` is the ceiling of length over 9
(0 for the empty list under the code's formula); a displayed page is the
contiguous slice starting at the cursor offset and never holds more than 9
items; and the pages taken at offsets 0, 9, 18, … concatenate back to the
whole ordered list, so their lengths sum to its length. -/
theorem paginator_pages_partition (l : List ScoredPoint) :
    total_pages l.length = ⌈(l.length : ℚ) / (items_per_page : ℚ)⌉₊
    ∧ (l.length = 0 → total_pages l.length = 0)
    ∧ (∀ current_idx, (pageSlice l current_idx).length ≤ items_per_page)
    ∧ ((List.range (total_pages l.length)).map
        fun k => pageSlice l (k * items_per_page)).flatten = l
    ∧ ((List.range (total_pages l.length)).map
        fun k => (pageSlice l (k * items_per_page)).length).sum = l.length := by
  refine ⟨total_pages_eq_ceil _, ?_, ?_, pageSlice_flatten l, pageSlice_length_sum l⟩
  · intro h
    rw [h]
    rfl
  · intro current_idx
    rw [pageSlice, List.length_take]
    omega

theorem reorder_head_tail_sort_spec_witness :
    (fiveResults.Pairwise fun x y => x.id < y.id)
    ∧ (((reorder fiveResults 1000).take TOP_K).Perm (fiveResults.take TOP_K)
      ∧ ((reorder fiveResults 1000).drop TOP_K).Perm (fiveResults.drop TOP_K)
      ∧ ((reorder fiveResults 1000).take TOP_K).Pairwise (fun x y =>
          |get_price 1000 x - 1000| < |get_price 1000 y - 1000| ∨
            (|get_price 1000 x - 1000| = |get_price 1000 y - 1000| ∧ x.id < y.id))
      ∧ ((reorder fiveResults 1000).drop TOP_K).Pairwise (fun x y =>
          get_price 1000 x < get_price 1000 y ∨
            (get_price 1000 x = get_price 1000 y ∧ x.id < y.id))
      ∧ (∀ x ∈ fiveResults, x.payload.price = none →
          get_price 1000 x = 1000 ∧ |get_price 1000 x - 1000| = 0)
      ∧ (fiveResults.length ≤ TOP_K → (reorder fiveResults 1000).drop TOP_K = [])) := by
  have hyp : fiveResults.Pairwise fun x y => x.id < y.id := by decide
  exact ⟨hyp, reorder_head_tail_sort_spec fiveResults 1000 hyp⟩

theorem rank_sorted_desc_stable_truncated_witness :
    (fiveResults.Pairwise fun x y => x.id < y.id)
    ∧ ((sortByScoreDesc fiveResults).Perm fiveResults
      ∧ (sortByScoreDesc fiveResults).Pairwise (fun x y =>
          y.score < x.score ∨ (x.score = y.score ∧ x.id < y.id))
      ∧ rankResults fiveResults = (sortByScoreDesc fiveResults).take 100
      ∧ (rankResults fiveResults).length = min 100 fiveResults.length
      ∧ (rankResults fiveResults).Pairwise (fun x y =>
          y.score < x.score ∨ (x.score = y.score ∧ x.id < y.id))
      ∧ processResults fiveResults 1000 = reorder (rankResults fiveResults) 1000) := by
  have hyp : fiveResults.Pairwise fun x y => x.id < y.id := by decide
  exact ⟨hyp, rank_sorted_desc_stable_truncated fiveResults 1000 hyp⟩
